import Mathlib

/-!
Verification of the txtflow command-pipeline engine (src/main.go).

The Go source is shallowly embedded: pure parsing functions become Lean
functions on `List Char` / `String`; the process-spawning primitive
(`os/exec`) and the third-party tokenizer (`github.com/google/shlex`) are
abstracted as explicit function parameters, so the sequencing and
error-handling logic of `runCommand` is captured exactly while the external
world stays a parameter.
-/

namespace Txtflow

/-- Model of Go `strings.TrimSpace` (ASCII whitespace scope), written over
the character list so that it evaluates by kernel reduction. -/
def trimSpace (s : String) : String :=
  String.mk (((s.data.dropWhile Char.isWhitespace).reverse.dropWhile
    Char.isWhitespace).reverse)

/-- The single-quote character `'` (code 39), as recognized by
`parsePipedCommands` in src/main.go. -/
def squote : Char := Char.ofNat 39

/-- The double-quote character `"` (code 34). -/
def dquote : Char := Char.ofNat 34

/-- The backquote character (code 96). -/
def bquote : Char := Char.ofNat 96

/-- Parse errors returned by `parsePipedCommands` (src/main.go): the code
builds them with `fmt.Errorf`; we keep them structured and render the Go
message text with `ParseErr.message`. -/
inductive ParseErr where
  | mismatched (opened attempted : Char)
  | unterminated (q : Char)
deriving Repr, DecidableEq

/-- The `err.Error()` text of each parse error, exactly as `fmt.Errorf`
formats it in src/main.go (including the `unclose` typo in the source). -/
def ParseErr.message : ParseErr → String
  | .mismatched o a =>
      "malformatted command string: mismatched quotes " ++ String.mk [o] ++
        " & " ++ String.mk [a]
  | .unterminated q =>
      "malformatted command string: unclose quote " ++ String.mk [q]

/-- The loop body and tail of Go `parsePipedCommands` (src/main.go lines
397-439): `commands` is the accumulated segment list, `current` the bytes of
`currentCommand`, `openQuote` the current quote state (`none` models
`emptyRune`). On a quote character: open if no span is open, close on the
same character, error on a different one; an unquoted pipe emits the trimmed
current text; every other rune (and quoted pipes and quote runes) is
appended to `current`. After the loop the trailing chunk is emitted only
when non-empty, and a still-open quote is an error. -/
def parseAux : List Char → List String → List Char → Option Char →
    Except ParseErr (List String)
  | [], commands, current, openQuote =>
      match openQuote with
      | some q => .error (.unterminated q)
      | none =>
          .ok (if current = [] then commands
               else commands ++ [trimSpace (String.mk current)])
  | r :: rest, commands, current, openQuote =>
      if r = squote ∨ r = dquote ∨ r = bquote then
        match openQuote with
        | none => parseAux rest commands (current ++ [r]) (some r)
        | some q =>
            if q = r then parseAux rest commands (current ++ [r]) none
            else .error (.mismatched q r)
      else if r = '|' then
        match openQuote with
        | none =>
            parseAux rest (commands ++ [trimSpace (String.mk current)]) [] none
        | some _ => parseAux rest commands (current ++ [r]) openQuote
      else parseAux rest commands (current ++ [r]) openQuote

/-- Go `parsePipedCommands` (src/main.go): split a command string on
unquoted `|`, respecting the three quote characters. -/
def parsePipedCommands (cmdStr : String) : Except ParseErr (List String) :=
  parseAux cmdStr.data [] [] none

/-- Quote-state scanner used to state claims about quoting conditions on a
line: it follows exactly the quote transitions of `parsePipedCommands` and
returns the quote state at end-of-line, or the `(opened, attempted)` pair of
the first mismatched quote. -/
def finalQuote : List Char → Option Char → Except (Char × Char) (Option Char)
  | [], q => .ok q
  | r :: rest, q =>
      if r = squote ∨ r = dquote ∨ r = bquote then
        match q with
        | none => finalQuote rest (some r)
        | some q0 => if q0 = r then finalQuote rest none else .error (q0, r)
      else finalQuote rest q

/-- Condition scanner: `true` when no `|` occurs while a quoted span is
open (following the same quote transitions as `parsePipedCommands`; after a
mismatched quote, where parsing fails anyway, the value is irrelevant and we
return `true`). -/
def noQuotedPipe : List Char → Option Char → Bool
  | [], _ => true
  | r :: rest, q =>
      if r = squote ∨ r = dquote ∨ r = bquote then
        match q with
        | none => noQuotedPipe rest (some r)
        | some q0 => if q0 = r then noQuotedPipe rest none else true
      else if r = '|' then
        match q with
        | none => noQuotedPipe rest none
        | some _ => false
      else noQuotedPipe rest q

/-- The number of `|` characters encountered while no quoted span is open
(same quote transitions as `parsePipedCommands`). -/
def unquotedPipes : List Char → Option Char → Nat
  | [], _ => 0
  | r :: rest, q =>
      if r = squote ∨ r = dquote ∨ r = bquote then
        match q with
        | none => unquotedPipes rest (some r)
        | some q0 => if q0 = r then unquotedPipes rest none else 0
      else if r = '|' then
        match q with
        | none => unquotedPipes rest none + 1
        | some _ => unquotedPipes rest q
      else unquotedPipes rest q

/-- Whether the chunk accumulated since the last unquoted `|` is non-empty
at end-of-line: the flag `b` says whether the current chunk is non-empty so
far; every rune except an unquoted `|` lands in the chunk, and an unquoted
`|` resets it. -/
def lastChunkNonempty : List Char → Bool → Option Char → Bool
  | [], b, _ => b
  | r :: rest, b, q =>
      if r = squote ∨ r = dquote ∨ r = bquote then
        match q with
        | none => lastChunkNonempty rest true (some r)
        | some q0 => if q0 = r then lastChunkNonempty rest true none else b
      else if r = '|' then
        match q with
        | none => lastChunkNonempty rest false none
        | some _ => lastChunkNonempty rest true q
      else lastChunkNonempty rest true q

/-- Result of running one external process, abstracting Go `exec.Cmd.Run`
in src/main.go: the captured stdout and stderr buffers, and `runErr`, the
`err.Error()` text when `cmd.Run()` returned a launch or exit error
(`none` on success). -/
structure ExecOutcome where
  stdout : String
  stderr : String
  runErr : Option String
deriving Repr, DecidableEq

/-- The external-process primitive, abstracted: argv and stdin bytes to an
`ExecOutcome`. -/
abbrev ExecOracle := List String → String → ExecOutcome

/-- The `shlex.Split` tokenizer (third-party library, specified only by
contract): segment text to argv, or an error text. -/
abbrev Tokenizer := String → Except String (List String)

/-- Go `commandResultMsg` (src/main.go): the message the executor sends
back to the control loop. -/
structure CommandResultMsg where
  output : String
  errorMessage : String
deriving Repr, DecidableEq

/-- The per-segment loop of Go `runCommand` (src/main.go lines 461-498),
with `lastOutput` threaded explicitly: each segment is re-trimmed; an empty
segment is the missing-command error; the segment is tokenized (the Go code
folds a nil-error empty-token result into the same message shape, where
`%s` of a nil error prints `%!s(<nil>)`); the process runs on `lastOutput`;
a run error produces the failure message from trimmed stderr when stderr is
non-empty, else from the error text; on success the captured stdout becomes
the next stage's input, and after the last segment it is the result. -/
def runSegments (ex : ExecOracle) (tok : Tokenizer) :
    List String → String → CommandResultMsg
  | [], lastOutput => ⟨lastOutput, ""⟩
  | seg :: rest, lastOutput =>
      if trimSpace seg = "" then
        ⟨"", "Syntax error: missing command between pipes"⟩
      else
        match tok (trimSpace seg) with
        | .error e =>
            ⟨"", "Failed to parse command " ++ trimSpace seg ++ ": " ++ e⟩
        | .ok [] =>
            ⟨"", "Failed to parse command " ++ trimSpace seg ++ ": %!s(<nil>)"⟩
        | .ok (prog :: args) =>
            match (ex (prog :: args) lastOutput).runErr with
            | some e =>
                ⟨"", "Error: Command '" ++ trimSpace seg ++ "' failed. " ++
                  (if (ex (prog :: args) lastOutput).stderr = "" then e
                   else trimSpace (ex (prog :: args) lastOutput).stderr)⟩
            | none => runSegments ex tok rest (ex (prog :: args) lastOutput).stdout

/-- Go `runCommand` (src/main.go lines 443-499) as a pure function of the
command-line text, the SourceBuffer snapshot (`m.stdinContent`), and the
two abstracted primitives: a whitespace-only line is the identity result; a
parse error is surfaced as its message; otherwise the segments run in
order, seeded with the snapshot. -/
def runCommand (ex : ExecOracle) (tok : Tokenizer)
    (inputValue stdinContent : String) : CommandResultMsg :=
  if trimSpace inputValue = "" then ⟨stdinContent, ""⟩
  else
    match parsePipedCommands (trimSpace inputValue) with
    | .error e => ⟨"", e.message⟩
    | .ok commands => runSegments ex tok commands stdinContent

/-- Condition under which every stage of a segment list succeeds when run
in order from `input`: each trimmed segment is non-empty, tokenizes to a
non-empty argv, and its process run reports no error; the recursion threads
each stage's stdout to the next, exactly as `runSegments` does. -/
def allStagesOk (ex : ExecOracle) (tok : Tokenizer) :
    List String → String → Bool
  | [], _ => true
  | seg :: rest, input =>
      if trimSpace seg = "" then false
      else
        match tok (trimSpace seg) with
        | .error _ => false
        | .ok [] => false
        | .ok (prog :: args) =>
            match (ex (prog :: args) input).runErr with
            | some _ => false
            | none => allStagesOk ex tok rest (ex (prog :: args) input).stdout

/-- The chained output of a segment list: the first stage reads `input`,
each later stage reads the previous stage's captured stdout, and the value
is the final stage's captured stdout (on paths where tokenization fails the
value is irrelevant; it is only read under `allStagesOk`). -/
def chainOut (ex : ExecOracle) (tok : Tokenizer) :
    List String → String → String
  | [], input => input
  | seg :: rest, input =>
      match tok (trimSpace seg) with
      | .ok (prog :: args) => chainOut ex tok rest (ex (prog :: args) input).stdout
      | _ => input

/-- Model of Go `strings.TrimSuffix`, over character lists so that it
evaluates by kernel reduction. -/
def trimSuffix (s suf : String) : String :=
  if s.data.reverse.take suf.data.length = suf.data.reverse
  then String.mk ((s.data.reverse.drop suf.data.length).reverse)
  else s

/-- The engine-relevant fields of the Go `model` struct (src/main.go):
`stdinContent` is the SourceBuffer, `inputValue` the CommandLine text held
by the text input, `rawOutput` the displayed output, `errorMessage` the
error annotation, `command` the text stored for exit-and-print, `quitting`
the exit flag. Presentation-only fields (viewport, styles, line-number
rendering) are out of scope per the spec. -/
structure AppModel where
  stdinContent : String
  inputValue : String
  rawOutput : String
  errorMessage : String
  command : String
  quitting : Bool
deriving Repr, DecidableEq

/-- Go `model.updateOutput` (src/main.go): store the output with one
trailing newline removed as the displayed raw output. -/
def updateOutput (m : AppModel) (output : String) : AppModel :=
  { m with rawOutput := trimSuffix output "\n" }

/-- Go `model.handleCommandResultMsg` (src/main.go lines 381-390): a
failure only sets the error annotation, leaving the output as it was; a
success stores the new output and clears the annotation. -/
def handleCommandResultMsg (m : AppModel) (msg : CommandResultMsg) : AppModel :=
  if msg.errorMessage = "" then
    { updateOutput m msg.output with errorMessage := "" }
  else
    { m with errorMessage := msg.errorMessage }

/-- The three session-ending key actions of `handleKeyMsg` (src/main.go):
Ctrl+C (`forceExit`), Ctrl+X (`exitAndPrint`), and `q` in view mode
(`viewExit`). -/
inductive ExitKey where
  | forceExit
  | exitAndPrint
  | viewExit
deriving Repr, DecidableEq

/-- The exit branches of Go `handleKeyMsg` (src/main.go lines 193-199 and
220-222): Ctrl+X stores the current input text in `command` before
quitting; the plain exits only set `quitting`. -/
def handleExitKey (m : AppModel) (k : ExitKey) : AppModel :=
  match k with
  | .forceExit => { m with quitting := true }
  | .exitAndPrint => { m with command := m.inputValue, quitting := true }
  | .viewExit => { m with quitting := true }

/-- The lines Go `main` (src/main.go lines 536-540) prints to the process's
own stdout after the session ends: the stored command via `fmt.Println`
when non-empty, nothing otherwise. -/
def mainEmits (m : AppModel) : List String :=
  if m.command = "" then [] else [m.command]

/-- The process exit code of Go `main`: `os.Exit(1)` when the presentation
runtime fails to run, normal return (code 0) otherwise. -/
def mainExitCode (runOk : Bool) : Nat :=
  if runOk then 0 else 1

/-- The `stdinMsg` branch of Go `model.Update` (src/main.go lines 177-182):
a non-empty line (with a live channel) is appended to the SourceBuffer with
a trailing newline, the error annotation is cleared, and the returned
commands re-arm the channel read and re-run the pipeline; otherwise the
model is untouched and no command is issued. The second component models
whether any command (further read + re-execution) was issued. -/
def handleStdinMsg (m : AppModel) (line : String) (chPresent : Bool) :
    AppModel × Bool :=
  if line ≠ "" ∧ chPresent then
    ({ m with stdinContent := m.stdinContent ++ line ++ "\n",
              errorMessage := "" }, true)
  else (m, false)

/-- Repeated delivery of ingestion chunks: each chunk is handled by the
`stdinMsg` branch, and the next chunk is consumed only when that branch
issued a further read command. -/
def consumeChunks (m : AppModel) : List String → AppModel
  | [] => m
  | line :: rest =>
      match handleStdinMsg m line true with
      | (m2, true) => consumeChunks m2 rest
      | (m2, false) => m2

/-- Concrete deterministic process oracle used in witnesses: `dup` doubles
its input, `excl` appends a bang, `boom` fails with diagnostic text ending
in a newline, `quiet` fails with empty diagnostics, anything else fails to
launch. -/
def exW : ExecOracle := fun argv input =>
  if argv = ["dup"] then ⟨input ++ input, "", none⟩
  else if argv = ["excl"] then ⟨input ++ "!", "", none⟩
  else if argv = ["boom"] then ⟨"", "boom failed\n", some "exit status 1"⟩
  else if argv = ["quiet"] then ⟨"", "", some "exit status 2"⟩
  else ⟨"", "", some "exec: executable file not found in PATH"⟩

/-- Concrete tokenizer used in witnesses: every segment is a single word
naming the program. -/
def tokW : Tokenizer := fun s => .ok [s]

/-- When every stage of a segment list succeeds, the per-segment loop
returns the chained final output and no error message. -/
theorem runSegments_ok (ex : ExecOracle) (tok : Tokenizer) :
    ∀ (segs : List String) (input : String),
      allStagesOk ex tok segs input = true →
      runSegments ex tok segs input = ⟨chainOut ex tok segs input, ""⟩ := by
  intro segs
  induction segs with
  | nil => intro input _; rfl
  | cons seg rest ih =>
    intro input h
    by_cases h1 : trimSpace seg = ""
    · simp [allStagesOk, h1] at h
    · rcases h2 : tok (trimSpace seg) with e | parts
      · simp [allStagesOk, h1, h2] at h
      · cases parts with
        | nil => simp [allStagesOk, h1, h2] at h
        | cons prog args =>
          rcases h3 : (ex (prog :: args) input).runErr with _ | e
          · simp only [allStagesOk, h1, h2, h3, if_neg h1] at h
            simp only [runSegments, chainOut, h2, h3, if_neg h1]
            exact ih _ h
          · simp [allStagesOk, h1, h2, h3] at h

/-- C1: for every segment list produced from a non-empty command line and
every SourceBuffer snapshot, the executor runs the segments in order,
feeding the snapshot to the first stage and each stage's captured stdout to
the next stage; when every stage succeeds, the result is the final stage's
captured output with an empty error message. -/
theorem pipeline_success (ex : ExecOracle) (tok : Tokenizer)
    (line input : String) (segs : List String)
    (h0 : trimSpace line ≠ "")
    (h1 : parsePipedCommands (trimSpace line) = .ok segs)
    (h2 : allStagesOk ex tok segs input = true) :
    runCommand ex tok line input = ⟨chainOut ex tok segs input, ""⟩ := by
  simp only [runCommand, if_neg h0, h1]
  exact runSegments_ok ex tok segs input h2

/-- Witness for C1: `dup | excl` over snapshot `"hi"` with the concrete
oracle gives `"hi"` doubled and then banged. -/
theorem pipeline_success_witness :
    runCommand exW tokW "dup | excl" "hi" = ⟨"hihi!", ""⟩ := by
  have h := pipeline_success exW tokW "dup | excl" "hi" ["dup", "excl"]
    (by decide) rfl (by decide)
  rw [h]
  exact rfl

/-- When the stages before some segment all succeed and that segment's
process run reports an error, the loop stops there: the result is the
failure message built from the trimmed stderr (when stderr is non-empty)
or the run error text, independently of every segment after the failing
one. -/
theorem runSegments_failure (ex : ExecOracle) (tok : Tokenizer) :
    ∀ (pre : List String) (input : String),
      allStagesOk ex tok pre input = true →
      ∀ (fseg : String) (post : List String) (prog : String)
        (args : List String) (e : String),
        trimSpace fseg ≠ "" →
        tok (trimSpace fseg) = .ok (prog :: args) →
        (ex (prog :: args) (chainOut ex tok pre input)).runErr = some e →
        runSegments ex tok (pre ++ fseg :: post) input =
          ⟨"", "Error: Command '" ++ trimSpace fseg ++ "' failed. " ++
            (if (ex (prog :: args) (chainOut ex tok pre input)).stderr = ""
             then e
             else trimSpace (ex (prog :: args) (chainOut ex tok pre input)).stderr)⟩ := by
  intro pre
  induction pre with
  | nil =>
    intro input _ fseg post prog args e hseg htok herr
    simp only [chainOut] at herr ⊢
    simp [runSegments, hseg, htok, herr]
  | cons p pre ih =>
    intro input hpre fseg post prog args e hseg htok herr
    by_cases h1 : trimSpace p = ""
    · simp [allStagesOk, h1] at hpre
    · rcases h2 : tok (trimSpace p) with e2 | parts
      · simp [allStagesOk, h1, h2] at hpre
      · cases parts with
        | nil => simp [allStagesOk, h1, h2] at hpre
        | cons pp aa =>
          rcases h3 : (ex (pp :: aa) input).runErr with _ | e3
          · simp only [allStagesOk, h1, h2, h3, if_neg h1] at hpre
            have hco : chainOut ex tok (p :: pre) input =
                chainOut ex tok pre ((ex (pp :: aa) input).stdout) := by
              simp [chainOut, h2]
            rw [hco] at herr
            simp only [List.cons_append, runSegments, h2, h3, if_neg h1, hco]
            exact ih _ hpre fseg post prog args e hseg htok herr
          · simp [allStagesOk, h1, h2, h3] at hpre

/-- C2 (amended): when some stage's process run fails, no later segment
influences the result, and the failure message is the fixed prefix followed
by the whitespace-trimmed captured stderr when the raw stderr is non-empty,
otherwise by the launch/exit error text. -/
theorem pipeline_failure (ex : ExecOracle) (tok : Tokenizer)
    (pre : List String) (fseg : String) (post : List String) (input : String)
    (prog : String) (args : List String) (e : String)
    (hpre : allStagesOk ex tok pre input = true)
    (hseg : trimSpace fseg ≠ "")
    (htok : tok (trimSpace fseg) = .ok (prog :: args))
    (herr : (ex (prog :: args) (chainOut ex tok pre input)).runErr = some e) :
    runSegments ex tok (pre ++ fseg :: post) input =
      ⟨"", "Error: Command '" ++ trimSpace fseg ++ "' failed. " ++
        (if (ex (prog :: args) (chainOut ex tok pre input)).stderr = ""
         then e
         else trimSpace (ex (prog :: args) (chainOut ex tok pre input)).stderr)⟩ :=
  runSegments_failure ex tok pre input hpre fseg post prog args e hseg htok herr

/-- Witness for C2 (amended): in `dup | boom | excl` the `boom` stage fails
on input `"hihi"`; its stderr `"boom failed\n"` is trimmed into the
message, and the trailing `excl` segment is never run. -/
theorem pipeline_failure_witness :
    runSegments exW tokW ["dup", "boom", "excl"] "hi" =
      ⟨"", "Error: Command 'boom' failed. boom failed"⟩ := by
  have h := pipeline_failure exW tokW ["dup"] "boom" ["excl"] "hi" "boom" []
    "exit status 1" (by decide) (by decide) rfl rfl
  exact h

/-- Counterexample for C2 as stated: the `boom` stage's captured
diagnostic text is `"boom failed\n"`, but the produced message carries the
trimmed text `"boom failed"`, so the message is not the prefix followed by
the captured diagnostic-stream text. -/
theorem pipeline_failure_claim_false :
    runSegments exW tokW ["boom"] "hi" =
      ⟨"", "Error: Command 'boom' failed. boom failed"⟩ ∧
    (exW ["boom"] "hi").stderr = "boom failed\n" ∧
    "Error: Command 'boom' failed. boom failed" ≠
      "Error: Command 'boom' failed. " ++ "boom failed\n" :=
  ⟨rfl, rfl, by decide⟩

/-- When the stages before some whitespace-only segment all succeed, the
loop reaches that segment and returns the missing-command error. -/
theorem runSegments_empty_seg (ex : ExecOracle) (tok : Tokenizer) :
    ∀ (pre : List String) (input : String),
      allStagesOk ex tok pre input = true →
      ∀ (eseg : String) (rest : List String),
        trimSpace eseg = "" →
        runSegments ex tok (pre ++ eseg :: rest) input =
          ⟨"", "Syntax error: missing command between pipes"⟩ := by
  intro pre
  induction pre with
  | nil =>
    intro input _ eseg rest he
    simp [runSegments, he]
  | cons p pre ih =>
    intro input hpre eseg rest he
    by_cases h1 : trimSpace p = ""
    · simp [allStagesOk, h1] at hpre
    · rcases h2 : tok (trimSpace p) with e2 | parts
      · simp [allStagesOk, h1, h2] at hpre
      · cases parts with
        | nil => simp [allStagesOk, h1, h2] at hpre
        | cons pp aa =>
          rcases h3 : (ex (pp :: aa) input).runErr with _ | e3
          · simp only [allStagesOk, h1, h2, h3, if_neg h1] at hpre
            simp only [List.cons_append, runSegments, h2, h3, if_neg h1]
            exact ih _ hpre eseg rest he
          · simp [allStagesOk, h1, h2, h3] at hpre

/-- C7 (amended): when a segment list contains a whitespace-only segment
and every stage before the first such segment succeeds, the engine returns
the `missing command between pipes` failure; handling that failure leaves
the displayed output, the SourceBuffer and the CommandLine unchanged. The
stages before the empty segment are executed, not skipped (see the
counterexample for the claim as stated). -/
theorem empty_segment_error (ex : ExecOracle) (tok : Tokenizer)
    (pre : List String) (eseg : String) (rest : List String)
    (input : String) (m : AppModel)
    (hpre : allStagesOk ex tok pre input = true)
    (he : trimSpace eseg = "") :
    runSegments ex tok (pre ++ eseg :: rest) input =
      ⟨"", "Syntax error: missing command between pipes"⟩ ∧
    (handleCommandResultMsg m
      (runSegments ex tok (pre ++ eseg :: rest) input)).rawOutput = m.rawOutput ∧
    (handleCommandResultMsg m
      (runSegments ex tok (pre ++ eseg :: rest) input)).stdinContent = m.stdinContent ∧
    (handleCommandResultMsg m
      (runSegments ex tok (pre ++ eseg :: rest) input)).inputValue = m.inputValue := by
  have h := runSegments_empty_seg ex tok pre input hpre eseg rest he
  rw [h]
  have hne : ("Syntax error: missing command between pipes" : String) ≠ "" := by
    decide
  refine ⟨rfl, ?_, ?_, ?_⟩ <;> simp [handleCommandResultMsg, hne]

/-- Witness for C7 (amended): `dup || excl` with the succeeding `dup`
stage; the middle empty segment produces the missing-command error and the
model fields survive unchanged. -/
theorem empty_segment_error_witness :
    runSegments exW tokW ["dup", "", "excl"] "hi" =
      ⟨"", "Syntax error: missing command between pipes"⟩ ∧
    (handleCommandResultMsg ⟨"hi", "dup || excl", "old", "", "", false⟩
      (runSegments exW tokW ["dup", "", "excl"] "hi")).rawOutput = "old" := by
  have h := empty_segment_error exW tokW ["dup"] "" ["excl"] "hi"
    ⟨"hi", "dup || excl", "old", "", "", false⟩ (by decide) (by decide)
  exact ⟨h.1, h.2.1⟩

/-- Counterexample for C7 as stated: the line `boom||dup` has an empty
segment between two separators, yet the engine does not return the parse
failure `missing command between pipes`: the stage before the empty
segment is spawned, fails, and its failure message is returned instead. -/
theorem empty_segment_claim_false :
    parsePipedCommands (trimSpace "boom||dup") = .ok ["boom", "", "dup"] ∧
    runCommand exW tokW "boom||dup" "hi" =
      ⟨"", "Error: Command 'boom' failed. boom failed"⟩ ∧
    "Error: Command 'boom' failed. boom failed" ≠
      "Syntax error: missing command between pipes" :=
  ⟨rfl, rfl, by decide⟩

/-- The splitter state machine refuses a line whose quote state is still
open at end-of-line, whatever segment list and chunk it has accumulated. -/
theorem parseAux_unterminated :
    ∀ (cs : List Char) (commands : List String) (current : List Char)
      (q : Option Char) (c : Char),
      finalQuote cs q = .ok (some c) →
      parseAux cs commands current q = .error (.unterminated c) := by
  intro cs
  induction cs with
  | nil =>
    intro commands current q c h
    simp only [finalQuote] at h
    cases q with
    | none => simp at h
    | some q0 =>
      have hc : q0 = c := by
        simpa using h
      subst hc
      rfl
  | cons r rest ih =>
    intro commands current q c h
    by_cases hq : r = squote ∨ r = dquote ∨ r = bquote
    · cases q with
      | none =>
        simp only [finalQuote, if_pos hq] at h
        simp only [parseAux, if_pos hq]
        exact ih _ _ _ _ h
      | some q0 =>
        by_cases he : q0 = r
        · simp only [finalQuote, if_pos hq, if_pos he] at h
          simp only [parseAux, if_pos hq, if_pos he]
          exact ih _ _ _ _ h
        · simp only [finalQuote, if_pos hq, if_neg he] at h
          simp at h
    · by_cases hp : r = '|'
      · cases q with
        | none =>
          simp only [finalQuote, if_neg hq] at h
          simp only [parseAux, if_neg hq, if_pos hp]
          exact ih _ _ _ _ h
        | some q0 =>
          simp only [finalQuote, if_neg hq] at h
          simp only [parseAux, if_neg hq, if_pos hp]
          exact ih _ _ _ _ h
      · simp only [finalQuote, if_neg hq] at h
        simp only [parseAux, if_neg hq, if_neg hp]
        exact ih _ _ _ _ h

/-- C5: for every command line whose quote state is still open at
end-of-line (opened by one of the three quote characters and never
closed), the splitter returns the unterminated-quote failure naming the
opening character, and produces no segment list. -/
theorem unterminated_quote_error (s : String) (c : Char)
    (h : finalQuote s.data none = .ok (some c)) :
    parsePipedCommands s = .error (.unterminated c) :=
  parseAux_unterminated s.data [] [] none c h

/-- Witness for C5 at the line `grep 'foo`, whose single-quote span stays
open to end-of-line. -/
theorem unterminated_quote_error_witness :
    finalQuote ("grep 'foo").data none = .ok (some squote) ∧
    parsePipedCommands "grep 'foo" = .error (.unterminated squote) :=
  ⟨rfl, unterminated_quote_error "grep 'foo" squote rfl⟩

/-- The splitter state machine fails with the mismatched-quote error as
soon as a different quote character is met inside an open span, whatever
segment list and chunk it has accumulated. -/
theorem parseAux_mismatched :
    ∀ (cs : List Char) (commands : List String) (current : List Char)
      (q : Option Char) (a b : Char),
      finalQuote cs q = .error (a, b) →
      parseAux cs commands current q = .error (.mismatched a b) := by
  intro cs
  induction cs with
  | nil =>
    intro commands current q a b h
    simp [finalQuote] at h
  | cons r rest ih =>
    intro commands current q a b h
    by_cases hq : r = squote ∨ r = dquote ∨ r = bquote
    · cases q with
      | none =>
        simp only [finalQuote, if_pos hq] at h
        simp only [parseAux, if_pos hq]
        exact ih _ _ _ _ _ h
      | some q0 =>
        by_cases he : q0 = r
        · simp only [finalQuote, if_pos hq, if_pos he] at h
          simp only [parseAux, if_pos hq, if_pos he]
          exact ih _ _ _ _ _ h
        · simp only [finalQuote, if_pos hq, if_neg he] at h
          obtain ⟨ha, hb⟩ : q0 = a ∧ r = b := by
            simpa [Prod.ext_iff] using h
          subst ha
          subst hb
          simp only [parseAux, if_pos hq, if_neg he]
    · by_cases hp : r = '|'
      · cases q with
        | none =>
          simp only [finalQuote, if_neg hq] at h
          simp only [parseAux, if_neg hq, if_pos hp]
          exact ih _ _ _ _ _ h
        | some q0 =>
          simp only [finalQuote, if_neg hq] at h
          simp only [parseAux, if_neg hq, if_pos hp]
          exact ih _ _ _ _ _ h
      · simp only [finalQuote, if_neg hq] at h
        simp only [parseAux, if_neg hq, if_neg hp]
        exact ih _ _ _ _ _ h

/-- C6: for every command line in which, while a span opened by one quote
character is open, a different quote character is met, the splitter
returns the mismatched-quote failure naming the opening and the attempted
closing characters. -/
theorem mismatched_quote_error (s : String) (a b : Char)
    (h : finalQuote s.data none = .error (a, b)) :
    parsePipedCommands s = .error (.mismatched a b) :=
  parseAux_mismatched s.data [] [] none a b h

/-- Witness for C6 at the line `grep "foo` followed by a backquote, where
a backquote is met inside the open double-quote span. -/
theorem mismatched_quote_error_witness :
    finalQuote ("grep \"foo`").data none = .error (dquote, bquote) ∧
    parsePipedCommands "grep \"foo`" = .error (.mismatched dquote bquote) :=
  ⟨rfl, mismatched_quote_error "grep \"foo`" dquote bquote rfl⟩

/-- A list extended by one element on the right is never empty. -/
theorem isEmpty_append_singleton {α : Type} (l : List α) (a : α) :
    (l ++ [a]).isEmpty = false := by
  cases l <;> rfl

/-- Segment count of the splitter state machine: on a successful parse of
a line with no quoted pipe, the final list adds to the accumulated
segments one segment per unquoted `|` plus one more when the chunk pending
at end-of-line is non-empty. -/
theorem parseAux_length :
    ∀ (cs : List Char) (commands : List String) (current : List Char)
      (q : Option Char) (l : List String),
      noQuotedPipe cs q = true →
      parseAux cs commands current q = .ok l →
      l.length = commands.length + unquotedPipes cs q +
        (if lastChunkNonempty cs (!current.isEmpty) q then 1 else 0) := by
  intro cs
  induction cs with
  | nil =>
    intro commands current q l _ h
    cases q with
    | some q0 => simp [parseAux] at h
    | none =>
      by_cases hc : current = []
      · subst hc
        simp only [parseAux, if_pos rfl] at h
        have hl : commands = l := by simpa using h
        subst hl
        simp [unquotedPipes, lastChunkNonempty]
      · simp only [parseAux, if_neg hc] at h
        have hl : commands ++ [trimSpace (String.mk current)] = l := by
          simpa using h
        subst hl
        have hce : current.isEmpty = false := by
          cases current with
          | nil => exact absurd rfl hc
          | cons a as => rfl
        simp [unquotedPipes, lastChunkNonempty, hce]
  | cons r rest ih =>
    intro commands current q l hn h
    by_cases hq : r = squote ∨ r = dquote ∨ r = bquote
    · cases q with
      | none =>
        simp only [noQuotedPipe, if_pos hq] at hn
        simp only [parseAux, if_pos hq] at h
        have h2 := ih commands (current ++ [r]) (some r) l hn h
        simp only [isEmpty_append_singleton, Bool.not_false] at h2
        simp only [unquotedPipes, lastChunkNonempty, if_pos hq]
        exact h2
      | some q0 =>
        by_cases he : q0 = r
        · simp only [noQuotedPipe, if_pos hq, if_pos he] at hn
          simp only [parseAux, if_pos hq, if_pos he] at h
          have h2 := ih commands (current ++ [r]) none l hn h
          simp only [isEmpty_append_singleton, Bool.not_false] at h2
          simp only [unquotedPipes, lastChunkNonempty, if_pos hq, if_pos he]
          exact h2
        · simp only [parseAux, if_pos hq, if_neg he] at h
          simp at h
    · by_cases hp : r = '|'
      · cases q with
        | none =>
          simp only [noQuotedPipe, if_neg hq, if_pos hp] at hn
          simp only [parseAux, if_neg hq, if_pos hp] at h
          have h2 := ih (commands ++ [trimSpace (String.mk current)]) [] none l hn h
          simp only [List.length_append, List.length_cons, List.length_nil,
            List.isEmpty_nil, Bool.not_true] at h2
          simp only [unquotedPipes, lastChunkNonempty, if_neg hq, if_pos hp]
          omega
        | some q0 =>
          simp only [noQuotedPipe, if_neg hq, if_pos hp] at hn
          simp at hn
      · simp only [noQuotedPipe, if_neg hq, if_neg hp] at hn
        simp only [parseAux, if_neg hq, if_neg hp] at h
        have h2 := ih commands (current ++ [r]) q l hn h
        simp only [isEmpty_append_singleton, Bool.not_false] at h2
        simp only [unquotedPipes, lastChunkNonempty, if_neg hq, if_neg hp]
        exact h2

/-- C4 (amended): for a line with no `|` inside any quoted span that
parses without a quote error, the segment count is the number of unquoted
`|` plus one when the chunk after the last unquoted `|` is non-empty;
when that final chunk is empty (the empty line, or a line ending in an
unquoted `|`), it is dropped and the count is just the number of unquoted
`|`. -/
theorem segment_count (s : String) (l : List String)
    (hq : noQuotedPipe s.data none = true)
    (hok : parsePipedCommands s = .ok l) :
    l.length = unquotedPipes s.data none +
      (if lastChunkNonempty s.data false none then 1 else 0) := by
  have h := parseAux_length s.data [] [] none l hq hok
  simpa using h

/-- Witness for C4 (amended) at `grep b | wc -l`: one unquoted pipe, a
non-empty final chunk, two segments. -/
theorem segment_count_witness :
    parsePipedCommands "grep b | wc -l" = .ok ["grep b", "wc -l"] ∧
    noQuotedPipe ("grep b | wc -l").data none = true ∧
    (["grep b", "wc -l"] : List String).length =
      unquotedPipes ("grep b | wc -l").data none +
        (if lastChunkNonempty ("grep b | wc -l").data false none then 1
         else 0) :=
  ⟨rfl, rfl, segment_count "grep b | wc -l" ["grep b", "wc -l"] rfl rfl⟩

/-- Counterexample for C4 as stated: `a|` has one unquoted `|` and no `|`
in any quoted span, yet the splitter emits one segment, not two — the
empty chunk after the trailing `|` is dropped. -/
theorem segment_count_claim_false :
    noQuotedPipe ("a|").data none = true ∧
    parsePipedCommands "a|" = .ok ["a"] ∧
    unquotedPipes ("a|").data none = 1 ∧
    (["a"] : List String).length ≠ 1 + 1 :=
  ⟨rfl, rfl, rfl, by decide⟩

/-- C3: for every SourceBuffer, executing an entirely empty or
whitespace-only CommandLine is not an error: the engine returns a
successful Output result whose bytes are exactly the current SourceBuffer,
unchanged. -/
theorem empty_commandline_identity (ex : ExecOracle) (tok : Tokenizer)
    (line input : String) (h : trimSpace line = "") :
    runCommand ex tok line input = ⟨input, ""⟩ := by
  simp [runCommand, h]

/-- Witness for C3 at the whitespace-only line `"  "` and SourceBuffer
`"a\nb\n"`. -/
theorem empty_commandline_identity_witness :
    runCommand exW tokW "  " "a\nb\n" = ⟨"a\nb\n", ""⟩ :=
  empty_commandline_identity exW tokW "  " "a\nb\n" (by decide)

/-- C8: on a Failure result the displayed output (last good output) is left
unchanged and only the error annotation is set; an Output result replaces
the displayed output (with one trailing newline stripped) and clears the
annotation; in both cases the SourceBuffer and the CommandLine text are
untouched. -/
theorem result_handling (m : AppModel) (msg : CommandResultMsg) :
    (msg.errorMessage ≠ "" →
      handleCommandResultMsg m msg = { m with errorMessage := msg.errorMessage }) ∧
    (msg.errorMessage = "" →
      handleCommandResultMsg m msg =
        { m with rawOutput := trimSuffix msg.output "\n", errorMessage := "" }) ∧
    (handleCommandResultMsg m msg).stdinContent = m.stdinContent ∧
    (handleCommandResultMsg m msg).inputValue = m.inputValue := by
  by_cases h : msg.errorMessage = "" <;>
    simp [handleCommandResultMsg, updateOutput, h]

/-- Witness for C8 on a concrete model, one failure message and one
success message. -/
theorem result_handling_witness :
    handleCommandResultMsg ⟨"src", "wc -l", "old", "", "", false⟩
        ⟨"", "Error: Command 'boom' failed. boom failed"⟩ =
      ⟨"src", "wc -l", "old", "Error: Command 'boom' failed. boom failed", "", false⟩ ∧
    handleCommandResultMsg ⟨"src", "wc -l", "old", "stale", "", false⟩
        ⟨"2\n", ""⟩ =
      ⟨"src", "wc -l", "2", "", "", false⟩ := by
  constructor
  · exact (result_handling ⟨"src", "wc -l", "old", "", "", false⟩
      ⟨"", "Error: Command 'boom' failed. boom failed"⟩).1 (by decide)
  · have h := (result_handling ⟨"src", "wc -l", "old", "stale", "", false⟩
      ⟨"2\n", ""⟩).2.1 rfl
    rw [h]
    decide

/-- C9: the exit-and-print action stores the CommandLine text, and after
the session ends `main` writes exactly that text to the process's own
stdout (nothing for the degenerate empty text); the two plain exits emit
nothing; a successfully finishing run exits with code 0. The hypothesis
`m.command = ""` is the state invariant before any exit key: `command` is
only ever written by the exit-and-print branch, which quits at once. -/
theorem exit_and_emit (m : AppModel) (h : m.command = "") :
    (m.inputValue ≠ "" →
      mainEmits (handleExitKey m .exitAndPrint) = [m.inputValue]) ∧
    (m.inputValue = "" → mainEmits (handleExitKey m .exitAndPrint) = []) ∧
    mainEmits (handleExitKey m .forceExit) = [] ∧
    mainEmits (handleExitKey m .viewExit) = [] ∧
    mainExitCode true = 0 := by
  by_cases hv : m.inputValue = "" <;>
    simp [mainEmits, handleExitKey, mainExitCode, h, hv]

/-- Witness for C9 on a concrete pre-exit model with CommandLine
`"grep b"`. -/
theorem exit_and_emit_witness :
    mainEmits (handleExitKey ⟨"a\nb\n", "grep b", "b", "", "", false⟩ .exitAndPrint) =
      ["grep b"] ∧
    mainEmits (handleExitKey ⟨"a\nb\n", "grep b", "b", "", "", false⟩ .forceExit) = [] := by
  have h := exit_and_emit ⟨"a\nb\n", "grep b", "b", "", "", false⟩ rfl
  exact ⟨h.1 (by decide), h.2.2.1⟩

/-- C10: an empty ingested chunk leaves the model entirely unchanged,
triggers no re-execution, and issues no further read of the ingestion
stream, so no chunk after the empty one is ever consumed. -/
theorem empty_chunk_stops (m : AppModel) (rest : List String) :
    handleStdinMsg m "" true = (m, false) ∧
    consumeChunks m ("" :: rest) = m := by
  constructor
  · simp [handleStdinMsg]
  · simp [consumeChunks, handleStdinMsg]

end Txtflow
